import Mathlib

/-!
Shallow embedding of the BLKHACK rule-evaluation and returns-projection
pipeline (Flask service under `app/`), for checking its natural-language
specification.

Modelling conventions, used consistently below:

* Python `Decimal` values are embedded as exact rationals (`ℚ`); the code
  computes with exact decimal arithmetic (`app/utils/financial.py`).
* `datetime` timestamps are embedded as integers (`Ts := ℤ`, think seconds
  since an epoch): the code only ever compares timestamps with `<=` and
  serialises them with `format_timestamp`, which is injective at second
  granularity, so the normalised duplicate-check key of a transaction is
  faithfully represented by the timestamp itself.
* Python string interpolation of numeric values inside human-readable
  rejection messages is rendered with `toString`; the exact float
  formatting (`:.2f`, `!r` quoting) is not load-bearing for any claim and
  is elided from the message text where noted.
* Python `set` objects are embedded as lists used only through membership.
-/

/-- Timestamps, embedding `datetime` at second granularity (`time_utils.py`). -/
abbrev Ts := Int

/-- Embeds `time_utils.is_within_range`: `start <= dt <= end`, inclusive. -/
def isWithinRange (dt start stop : Ts) : Bool :=
  decide (start ≤ dt ∧ dt ≤ stop)

/-- Embeds `time_utils.format_timestamp`; injective stand-in for the
`"YYYY-MM-DD HH:MM:SS"` rendering of a second-granularity datetime. -/
def formatTimestamp (dt : Ts) : String :=
  toString dt

/-- Embeds `schemas.Transaction`: enriched transaction. -/
structure Transaction where
  date : Ts
  amount : ℚ
  ceiling : ℚ
  remanent : ℚ
deriving DecidableEq, Repr

/-- Embeds `schemas.QRule` (field `stop` embeds Python field `end`,
a reserved word in Lean). -/
structure QRule where
  fixed : ℚ
  start : Ts
  stop : Ts
deriving DecidableEq, Repr

/-- Embeds `schemas.PRule` (field `stop` embeds Python field `end`). -/
structure PRule where
  extra : ℚ
  start : Ts
  stop : Ts
deriving DecidableEq, Repr

/-- Embeds `schemas.KRange`: `rawStart`/`rawEnd` embed the `raw_start` /
`raw_end` dataclass fields, whose Python defaults are `""`. -/
structure KRange where
  start : Ts
  stop : Ts
  rawStart : String := ""
  rawEnd : String := ""
deriving DecidableEq, Repr

/-- Embeds `schemas.InvalidTransaction`: rejected transaction plus message. -/
structure InvalidTransaction where
  transaction : Transaction
  message : String
deriving DecidableEq, Repr

/-- Embeds `schemas.TemporalResult` (also `ValidationResult`, structurally
identical): partition into valid and invalid transactions. -/
structure TemporalResult where
  valid : List Transaction
  invalid : List InvalidTransaction
deriving DecidableEq, Repr

/-- Embeds `schemas.FilteredTransaction` (raw-filter valid output). -/
structure FilteredTransaction where
  date : Ts
  amount : ℚ
  ceiling : ℚ
  remanent : ℚ
  inKPeriod : Bool
deriving DecidableEq, Repr

/-- Embeds `schemas.InvalidFilteredTransaction` (raw-filter invalid output). -/
structure InvalidFilteredTransaction where
  date : Ts
  amount : ℚ
  message : String
deriving DecidableEq, Repr

/-- Embeds `schemas.FilterResult` (raw-filter output). -/
structure FilterResult where
  valid : List FilteredTransaction
  invalid : List InvalidFilteredTransaction
deriving DecidableEq, Repr

/-- Embeds `schemas.SavingsByDate`; `start`/`stop` are the echoed raw K
boundary strings (`stop` embeds Python field `end`). -/
structure SavingsByDate where
  start : String
  stop : String
  amount : ℚ
  profit : ℚ
  taxBenefit : ℚ
deriving DecidableEq, Repr

/-- Embeds `schemas.ReturnsResult`. -/
structure ReturnsResult where
  totalTransactionAmount : ℚ
  totalCeiling : ℚ
  savingsByDates : List SavingsByDate
deriving DecidableEq, Repr

/-- Embeds a raw `{"date": ..., "amount": ...}` dict after timestamp
parsing: `date` is the parsed timestamp (Python keeps the normalised
serialisation `format_timestamp(parse_timestamp(s))` as the duplicate key,
which is in bijection with the parsed datetime). -/
structure RawTxn where
  date : Ts
  amount : ℚ
deriving DecidableEq, Repr

/- ── financial.py ───────────────────────────────────────────────────── -/

/-- Embeds `financial.NPS_ANNUAL_RATE = Decimal("0.0711")`. -/
def NPS_ANNUAL_RATE : ℚ := 711 / 10000

/-- Embeds `financial.INDEX_ANNUAL_RATE = Decimal("0.1449")`. -/
def INDEX_ANNUAL_RATE : ℚ := 1449 / 10000

/-- Embeds `financial.NPS_MAX_ABSOLUTE = Decimal("200000")`. -/
def NPS_MAX_ABSOLUTE : ℚ := 200000

/-- Embeds `financial.NPS_WAGE_FRACTION = Decimal("0.10")`. -/
def NPS_WAGE_FRACTION : ℚ := 10 / 100

/-- Embeds `financial.compute_ceiling`:
`(amount / 100).to_integral_value(rounding=ROUND_CEILING) * 100`, the
smallest multiple of 100 at or above `amount` (exact decimal arithmetic). -/
def compute_ceiling (amount : ℚ) : ℚ :=
  ((Int.ceil (amount / 100) : ℤ) : ℚ) * 100

/-- Embeds `financial.compute_remanent`: `ceiling - amount`. -/
def compute_remanent (ceiling amount : ℚ) : ℚ :=
  ceiling - amount

/-- Round-half-away-from-zero to 2 decimal places; embeds
`Decimal.quantize(Decimal("0.01"), rounding=ROUND_HALF_UP)`. -/
def quantize2 (x : ℚ) : ℚ :=
  if 0 ≤ x then ((Int.floor (x * 100 + 1 / 2) : ℤ) : ℚ) / 100
  else -(((Int.floor (-x * 100 + 1 / 2) : ℤ) : ℚ) / 100)

/-- Embeds `financial.calculate_tax` (new-regime slabs, FY 2024-25). -/
def calculate_tax (income : ℚ) : ℚ :=
  if income ≤ 0 then 0
  else
    let t1 : ℚ := if income > 700000 then (min income 1000000 - 700000) * (10 / 100) else 0
    let t2 : ℚ := if income > 1000000 then (min income 1200000 - 1000000) * (15 / 100) else 0
    let t3 : ℚ := if income > 1200000 then (min income 1500000 - 1200000) * (20 / 100) else 0
    let t4 : ℚ := if income > 1500000 then (income - 1500000) * (30 / 100) else 0
    quantize2 (t1 + t2 + t3 + t4)

/-- Embeds `financial.compute_nps_deduction`:
`min(invested, wage * 0.10, 200000)`. -/
def compute_nps_deduction (invested wage : ℚ) : ℚ :=
  min invested (min (wage * NPS_WAGE_FRACTION) NPS_MAX_ABSOLUTE)

/-- Embeds `financial.compute_tax_benefit`: `tax(wage) - tax(wage - deduction)`. -/
def compute_tax_benefit (wage deduction : ℚ) : ℚ :=
  calculate_tax wage - calculate_tax (wage - deduction)

/-- Embeds `financial.compound_grow`: `principal * (1 + rate)^years`
(returns the principal unchanged when `years <= 0`). -/
def compound_grow (principal rate : ℚ) (years : ℤ) : ℚ :=
  if years ≤ 0 then principal else principal * (1 + rate) ^ years.toNat

/-- Embeds `financial.inflation_adjusted`:
`(nominal / (1 + inflation)^years).quantize(0.01, ROUND_HALF_UP)`. -/
def inflation_adjusted (nominal inflation : ℚ) (years : ℤ) : ℚ :=
  if years ≤ 0 then nominal
  else quantize2 (nominal / (1 + inflation) ^ years.toNat)

/-- Embeds `financial.resolve_investment_years`: `max(60 - age, 5)`. -/
def resolve_investment_years (age : ℤ) : ℤ :=
  max (60 - age) 5

/- ── temporal_service.py shared helpers ─────────────────────────────── -/

/-- Embeds `temporal_service._best_q_rule`: among the Q rules whose
inclusive window contains `dt`, pick the one with the latest `start`;
Python `max` keeps the current maximum on ties, so the first listed rule
with the maximal start wins. -/
def best_q_rule (dt : Ts) (qRules : List QRule) : Option QRule :=
  match qRules.filter (fun r => isWithinRange dt r.start r.stop) with
  | [] => none
  | x :: xs => some (xs.foldl (fun best r => if best.start < r.start then r else best) x)

/-- Embeds `temporal_service._apply_p_rules`: add `extra` from every P rule
whose inclusive window contains `dt`. -/
def apply_p_rules (remanent : ℚ) (dt : Ts) (pRules : List PRule) : ℚ :=
  pRules.foldl (fun rem rule => if isWithinRange dt rule.start rule.stop then rem + rule.extra else rem) remanent

/-- Embeds `temporal_service._in_any_k`: `dt` lies inside at least one K range. -/
def in_any_k (dt : Ts) (kRanges : List KRange) : Bool :=
  kRanges.any (fun k => isWithinRange dt k.start k.stop)

/-- The Q-override layer shared by both temporal-engine variants and the
returns pipeline: replace the remanent by `fixed` of the best matching Q
rule, if any (`temporal_service.py` lines 111-113, 215-217;
`return_service.py` lines 113-115). -/
def apply_q_override (dt : Ts) (qRules : List QRule) (remanent : ℚ) : ℚ :=
  match best_q_rule dt qRules with
  | some r => r.fixed
  | none => remanent

/-- Q override followed by P additions, the adjustment applied per
transaction by both temporal-engine variants and the returns pipeline. -/
def adjustRemanent (dt : Ts) (qRules : List QRule) (pRules : List PRule) (remanent : ℚ) : ℚ :=
  apply_p_rules (apply_q_override dt qRules remanent) dt pRules

/-- The adjusted copy built by `apply_temporal_filter`: same date, amount
and ceiling, remanent replaced by the Q/P-adjusted value. -/
def adjustTxn (qRules : List QRule) (pRules : List PRule) (txn : Transaction) : Transaction :=
  { txn with remanent := adjustRemanent txn.date qRules pRules txn.remanent }

/-- The K-gating rejection message of both temporal-engine variants (the
`!r` quoting of the timestamp is elided from the model). -/
def kGateMsg (dt : Ts) : String :=
  "Timestamp " ++ formatTimestamp dt ++ " does not fall within any K validity range."

/- ── temporal_service.apply_temporal_filter (pre-enriched variant) ──── -/

/-- Embeds `temporal_service.apply_temporal_filter`: per transaction, in
input order, apply the Q override then the P additions, then gate on the K
ranges; transactions inside some K range go to `valid`, the others to
`invalid`, both in input order. -/
def apply_temporal_filter (qRules : List QRule) (pRules : List PRule)
    (kRanges : List KRange) : List Transaction → TemporalResult
  | [] => ⟨[], []⟩
  | txn :: rest =>
    let adjusted := adjustTxn qRules pRules txn
    let tail := apply_temporal_filter qRules pRules kRanges rest
    if in_any_k txn.date kRanges then
      ⟨adjusted :: tail.valid, tail.invalid⟩
    else
      ⟨tail.valid, ⟨adjusted, kGateMsg txn.date⟩ :: tail.invalid⟩

/- ── temporal_service.apply_temporal_filter_raw ─────────────────────── -/

/-- Loop state of `apply_temporal_filter_raw`: output lists built so far
plus the set of already-seen normalised timestamps. -/
structure RawFilterState where
  valid : List FilteredTransaction
  invalid : List InvalidFilteredTransaction
  seen : List Ts
deriving DecidableEq, Repr

/-- One iteration of the `apply_temporal_filter_raw` loop, in the code's
strict order: negative-amount rejection, duplicate rejection, enrichment,
Q override, P additions, silent drop of zero remanents, K gating. -/
def rawFilterStep (qRules : List QRule) (pRules : List PRule)
    (kRanges : List KRange) (s : RawFilterState) (raw : RawTxn) : RawFilterState :=
  if raw.amount < 0 then
    { s with invalid := s.invalid ++ [⟨raw.date, raw.amount, "Negative amounts are not allowed"⟩] }
  else if raw.date ∈ s.seen then
    { s with invalid := s.invalid ++ [⟨raw.date, raw.amount, "Duplicate transaction"⟩] }
  else
    let seen := raw.date :: s.seen
    let ceiling := compute_ceiling raw.amount
    let remanent := adjustRemanent raw.date qRules pRules (compute_remanent ceiling raw.amount)
    if remanent = 0 then
      { s with seen := seen }
    else if ¬ in_any_k raw.date kRanges then
      { s with seen := seen,
               invalid := s.invalid ++ [⟨raw.date, raw.amount, kGateMsg raw.date⟩] }
    else
      { s with seen := seen,
               valid := s.valid ++ [⟨raw.date, raw.amount, ceiling, remanent, true⟩] }

/-- The `apply_temporal_filter_raw` loop run from an arbitrary state. -/
def rawFilterFold (qRules : List QRule) (pRules : List PRule)
    (kRanges : List KRange) (s : RawFilterState) (raws : List RawTxn) : RawFilterState :=
  raws.foldl (rawFilterStep qRules pRules kRanges) s

/-- Embeds `temporal_service.apply_temporal_filter_raw`. -/
def apply_temporal_filter_raw (qRules : List QRule) (pRules : List PRule)
    (kRanges : List KRange) (raws : List RawTxn) : FilterResult :=
  let s := rawFilterFold qRules pRules kRanges ⟨[], [], []⟩ raws
  ⟨s.valid, s.invalid⟩

/- ── validation_service.py ──────────────────────────────────────────── -/

/-- Embeds `validation_service` rejection message
`"remanent (<v>) must be >= 0."` (value rendering simplified). -/
def remanentMsg (r : ℚ) : String :=
  "remanent " ++ toString r ++ " must be >= 0."

/-- Embeds rejection message `"ceiling (<c>) must be >= amount (<a>)."`. -/
def ceilingMsg (c a : ℚ) : String :=
  "ceiling " ++ toString c ++ " must be >= amount " ++ toString a ++ "."

/-- Embeds rejection message `"Duplicate timestamp: <ts>."` (the `!r`
quoting of the timestamp is elided). -/
def dupTimestampMsg (dt : Ts) : String :=
  "Duplicate timestamp: " ++ formatTimestamp dt ++ "."

/-- Embeds rejection message
`"Annual NPS investable limit of <max> already exceeded."` (the `:.2f`
float formatting of the limit is elided). -/
def limitAlreadyMsg (maxInv : ℚ) : String :=
  "Annual NPS investable limit of " ++ toString maxInv ++ " already exceeded."

/-- Embeds rejection message `"Adding remanent <r> would exceed annual NPS
investable limit of <max> (current cumulative: <c>)."` (float formatting
elided). -/
def limitBreachMsg (r maxInv cum : ℚ) : String :=
  "Adding remanent " ++ toString r ++ " would exceed annual NPS investable limit of "
    ++ toString maxInv ++ " (current cumulative: " ++ toString cum ++ ")."

/-- Embeds `min(wage * NPS_WAGE_FRACTION, NPS_MAX_ABSOLUTE)`, computed once
at the top of `validate_transactions` (line 50). -/
def maxInvestable (wage : ℚ) : ℚ :=
  min (wage * NPS_WAGE_FRACTION) NPS_MAX_ABSOLUTE

/-- Loop state of `validate_transactions`: the accumulator
`{runningTotal, limitBreached}` of the spec, plus the output lists and the
set of seen timestamp keys. -/
structure ValidatorState where
  valid : List Transaction
  invalid : List InvalidTransaction
  cumulative : ℚ
  seen : List Ts
  limitReached : Bool
deriving DecidableEq, Repr

/-- One iteration of the `validate_transactions` loop (lines 55-131), in
the code's rule order.  Rule 1 (`is_valid_timestamp(format_timestamp(dt))`)
re-serialises and re-parses the already-parsed datetime and therefore
always succeeds in the integer-timestamp model, so it imposes no branch
here; rules 2-5 are embedded verbatim. -/
def validateStep (maxInv : ℚ) (s : ValidatorState) (txn : Transaction) : ValidatorState :=
  if txn.remanent < 0 then
    { s with invalid := s.invalid ++ [⟨txn, remanentMsg txn.remanent⟩] }
  else if txn.ceiling < txn.amount then
    { s with invalid := s.invalid ++ [⟨txn, ceilingMsg txn.ceiling txn.amount⟩] }
  else if txn.date ∈ s.seen then
    { s with invalid := s.invalid ++ [⟨txn, dupTimestampMsg txn.date⟩] }
  else if s.limitReached then
    { s with invalid := s.invalid ++ [⟨txn, limitAlreadyMsg maxInv⟩] }
  else if s.cumulative + txn.remanent > maxInv then
    { s with limitReached := true,
             invalid := s.invalid ++ [⟨txn, limitBreachMsg txn.remanent maxInv s.cumulative⟩] }
  else
    { s with seen := txn.date :: s.seen,
             cumulative := s.cumulative + txn.remanent,
             valid := s.valid ++ [txn] }

/-- Embeds `validation_service.validate_transactions`. -/
def validate_transactions (wage : ℚ) (transactions : List Transaction) : TemporalResult :=
  let s := transactions.foldl (validateStep (maxInvestable wage))
    ⟨[], [], 0, [], false⟩
  ⟨s.valid, s.invalid⟩

/- ── return_service.py ──────────────────────────────────────────────── -/

/-- Loop state of `return_service._process_raw_transactions`. -/
structure ProcessState where
  enriched : List Transaction
  totalAmount : ℚ
  totalCeiling : ℚ
  seen : List Ts
deriving DecidableEq, Repr

/-- One iteration of the `_process_raw_transactions` loop (lines 89-120):
silently skip negatives and duplicates, enrich, add the raw amount and
ceiling to the totals before the Q/P adjustment, then adjust the remanent. -/
def processRawStep (qRules : List QRule) (pRules : List PRule)
    (s : ProcessState) (raw : RawTxn) : ProcessState :=
  if raw.amount < 0 then s
  else if raw.date ∈ s.seen then s
  else
    let ceiling := compute_ceiling raw.amount
    let remanent := adjustRemanent raw.date qRules pRules (compute_remanent ceiling raw.amount)
    { enriched := s.enriched ++ [⟨raw.date, raw.amount, ceiling, remanent⟩],
      totalAmount := s.totalAmount + raw.amount,
      totalCeiling := s.totalCeiling + ceiling,
      seen := raw.date :: s.seen }

/-- Embeds `return_service._process_raw_transactions`. -/
def process_raw_transactions (qRules : List QRule) (pRules : List PRule)
    (raws : List RawTxn) : ProcessState :=
  raws.foldl (processRawStep qRules pRules) ⟨[], 0, 0, []⟩

/-- Embeds `return_service._sum_remanent_in_k`: sum of remanents of the
enriched transactions whose date lies inside K (inclusive). -/
def sum_remanent_in_k (txns : List Transaction) (k : KRange) : ℚ :=
  ((txns.filter (fun t => isWithinRange t.date k.start k.stop)).map Transaction.remanent).sum

/-- Embeds `return_service._compute_savings`: one `SavingsByDate` entry;
`start`/`stop` echo the K range's `raw_start`/`raw_end` fields. -/
def compute_savings (k : KRange) (invested rate : ℚ) (years : ℤ)
    (inflation annualWage : ℚ) (includeTaxBenefit : Bool) : SavingsByDate :=
  let futureValue := compound_grow invested rate years
  let realValue := inflation_adjusted futureValue inflation years
  let profit := realValue - invested
  let taxBenefit :=
    if includeTaxBenefit ∧ invested > 0 then
      compute_tax_benefit annualWage (compute_nps_deduction invested annualWage)
    else 0
  ⟨k.rawStart, k.rawEnd, invested, profit, taxBenefit⟩

/-- Embeds `return_service.calculate_returns`. -/
def calculate_returns (age : ℤ) (annualWage inflation : ℚ)
    (qRules : List QRule) (pRules : List PRule) (kRanges : List KRange)
    (raws : List RawTxn) (includeTaxBenefit : Bool) : ReturnsResult :=
  let s := process_raw_transactions qRules pRules raws
  let rate := if includeTaxBenefit then NPS_ANNUAL_RATE else INDEX_ANNUAL_RATE
  let years := resolve_investment_years age
  let savings := kRanges.map (fun k =>
    compute_savings k (sum_remanent_in_k s.enriched k) rate years inflation annualWage includeTaxBenefit)
  ⟨s.totalAmount, s.totalCeiling, savings⟩

/- ── Route-level parsing (routes/returns.py, routes/transactions.py) ── -/

/-- Embeds `returns.py _parse_k_range` (lines 63-70): the `KRange` is
constructed from the parsed timestamps only; the `raw_start` / `raw_end`
fields are not passed and keep their dataclass defaults `""`.  The raw
input strings are the first two arguments, recorded here solely so the
theorems can compare them with what the pipeline echoes. -/
def parse_k_range (_rawStart _rawEnd : String) (start stop : Ts) : KRange :=
  { start := start, stop := stop }

/-- A raw expense dict for `returns.py _parse_expense`: `hasTimestamp` /
`hasAmount` model key presence, `amount = none` models a value
`to_decimal` rejects. -/
structure ExpenseDict where
  hasTimestamp : Bool
  hasAmount : Bool
  timestamp : String
  amount : Option ℚ
deriving DecidableEq, Repr

/-- Embeds `returns.py _parse_expense` (lines 31-38). -/
def parse_expense (e : ExpenseDict) : Except String (String × ℚ) :=
  if ¬ e.hasTimestamp then .error "Expense missing field: timestamp"
  else if ¬ e.hasAmount then .error "Expense missing field: amount"
  else
    match e.amount with
    | none => .error "Cannot convert value to Decimal"
    | some a => .ok (e.timestamp, a)

/-- The error message of `returns.py` line 98 and `transactions.py`
line 143. -/
def kRequiredMsg : String := "At least one K range is required."

/-- Embeds the list comprehension
`[_parse_expense(t) for t in transactions_raw]` (returns.py line 104):
parse every expense, failing on the first element whose parse fails. -/
def parse_expenses : List ExpenseDict → Except String (List (String × ℚ))
  | [] => .ok []
  | e :: es =>
    match parse_expense e with
    | .error m => .error m
    | .ok x =>
      match parse_expenses es with
      | .error m => .error m
      | .ok xs => .ok (x :: xs)

/-- Embeds the tail of `returns.py _parse_returns_body` (lines 95-104),
from the point where the K ranges have been parsed: the empty-K check
(lines 97-98) runs before any per-transaction expense parsing (line 104).
The age/wage/inflation field checks preceding line 95 are independent of
both the K list and the transactions and are not modelled. -/
def parse_returns_body (kRanges : List KRange) (transactions : List ExpenseDict) :
    Except String (List KRange × List (String × ℚ)) :=
  if kRanges.isEmpty then .error kRequiredMsg
  else
    match parse_expenses transactions with
    | .error m => .error m
    | .ok expenses => .ok (kRanges, expenses)

/-- A raw filter-route transaction dict for `transactions.py`
`filter_transactions`: key presence of `date` / `amount` is modelled. -/
structure FilterTxDict where
  hasDate : Bool
  hasAmount : Bool
  date : String
  amount : ℚ
deriving DecidableEq, Repr

/-- Embeds the per-transaction required-field loop of `transactions.py`
`filter_transactions` (lines 150-159); the index interpolation and `!r`
quoting in the messages are elided. -/
def checkFilterTx (t : FilterTxDict) : Except String (String × ℚ) :=
  if ¬ t.hasDate then .error "Transaction missing date field."
  else if ¬ t.hasAmount then .error "Transaction missing amount field."
  else .ok (t.date, t.amount)

/-- Embeds the per-transaction required-field loop of `transactions.py`
`filter_transactions` (lines 150-159) over a whole list, failing on the
first transaction that misses a field. -/
def checkFilterTxs : List FilterTxDict → Except String (List (String × ℚ))
  | [] => .ok []
  | t :: ts =>
    match checkFilterTx t with
    | .error m => .error m
    | .ok x =>
      match checkFilterTxs ts with
      | .error m => .error m
      | .ok xs => .ok (x :: xs)

/-- Embeds the K-check and per-transaction validation portion of
`transactions.py filter_transactions` (lines 142-159): the empty-K check
(lines 142-143) runs before the per-transaction loop. -/
def filter_route_check (kRanges : List KRange) (transactions : List FilterTxDict) :
    Except String (List KRange × List (String × ℚ)) :=
  if kRanges.isEmpty then .error kRequiredMsg
  else
    match checkFilterTxs transactions with
    | .error m => .error m
    | .ok txs => .ok (kRanges, txs)

/- ── Spec-side reference definitions ────────────────────────────────── -/

/-- Reference selector written from the spec's words for Q-rule selection
("select the one with the latest start timestamp; ties broken by the one
listed first in input order"): the first element of the list whose `start`
is maximal. -/
def firstLatestStart : List QRule → Option QRule
  | [] => none
  | r :: rs =>
    match firstLatestStart rs with
    | none => some r
    | some m => some (if r.start < m.start then m else r)

/-- The sublist of raw records the returns pipeline accepts: non-negative
amount and timestamp not seen earlier (first occurrence wins), written
independently of the fold state of `process_raw_transactions`. -/
def acceptedRaws (seen : List Ts) : List RawTxn → List RawTxn
  | [] => []
  | r :: rest =>
    if r.amount < 0 then acceptedRaws seen rest
    else if r.date ∈ seen then acceptedRaws seen rest
    else r :: acceptedRaws (r.date :: seen) rest

/-- Sum of the `extra` values of the P rules whose window contains `dt`. -/
def pExtraSum (dt : Ts) (pRules : List PRule) : ℚ :=
  ((pRules.filter (fun r => isWithinRange dt r.start r.stop)).map PRule.extra).sum

/- ── Helper lemmas ──────────────────────────────────────────────────── -/

/-- Python-style left-preferring max on `QRule.start` as a binary operation. -/
def qMax (a b : QRule) : QRule :=
  if a.start < b.start then b else a

theorem qMax_assoc (a b c : QRule) : qMax (qMax a b) c = qMax a (qMax b c) := by
  unfold qMax
  by_cases h1 : a.start < b.start <;> by_cases h2 : b.start < c.start <;>
    simp [h1, h2] <;>
    first
      | rfl
      | (intro h3; exfalso; simp only [not_lt] at h1 h2; linarith)
      | (split_ifs <;> first | rfl | (exfalso; simp only [not_lt] at *; linarith))

theorem firstLatestStart_cons (r : QRule) (rs : List QRule) :
    firstLatestStart (r :: rs) = some ((firstLatestStart rs).elim r (qMax r)) := by
  cases h : firstLatestStart rs with
  | none => simp [firstLatestStart, h]
  | some m => simp [firstLatestStart, h, qMax]

theorem firstLatestStart_cons_eq_foldl (xs : List QRule) (x : QRule) :
    firstLatestStart (x :: xs) = some (xs.foldl qMax x) := by
  induction xs generalizing x with
  | nil => simp [firstLatestStart]
  | cons y ys ih =>
    rw [List.foldl_cons, ← ih (qMax x y)]
    rw [firstLatestStart_cons x (y :: ys), firstLatestStart_cons y ys,
      firstLatestStart_cons (qMax x y) ys]
    cases h : firstLatestStart ys with
    | none => simp
    | some m =>
      simp only [h, Option.elim]
      exact congrArg some (qMax_assoc x y m).symm

theorem best_q_rule_eq_firstLatestStart (dt : Ts) (q : List QRule) :
    best_q_rule dt q = firstLatestStart (q.filter (fun r => isWithinRange dt r.start r.stop)) := by
  unfold best_q_rule
  cases h : q.filter (fun r => isWithinRange dt r.start r.stop) with
  | nil => rfl
  | cons x xs =>
    rw [firstLatestStart_cons_eq_foldl]
    rfl

theorem firstLatestStart_eq_none_iff (l : List QRule) :
    firstLatestStart l = none ↔ l = [] := by
  cases l with
  | nil => simp [firstLatestStart]
  | cons r rs => rw [firstLatestStart_cons]; simp

theorem firstLatestStart_mem (l : List QRule) :
    ∀ r, firstLatestStart l = some r → r ∈ l := by
  induction l with
  | nil => intro r h; simp [firstLatestStart] at h
  | cons x xs ih =>
    intro r h
    rw [firstLatestStart_cons] at h
    cases h2 : firstLatestStart xs with
    | none => rw [h2] at h; simp only [Option.elim, Option.some.injEq] at h; simp [← h]
    | some m =>
      rw [h2] at h; simp only [Option.elim, Option.some.injEq] at h
      subst h
      unfold qMax
      split_ifs
      · exact List.mem_cons_of_mem x (ih m h2)
      · exact List.mem_cons_self x xs

theorem firstLatestStart_maximal (l : List QRule) :
    ∀ r, firstLatestStart l = some r → ∀ x ∈ l, x.start ≤ r.start := by
  induction l with
  | nil => intro r h; simp [firstLatestStart] at h
  | cons y ys ih =>
    intro r h x hx
    rw [firstLatestStart_cons] at h
    cases h2 : firstLatestStart ys with
    | none =>
      have hnil : ys = [] := (firstLatestStart_eq_none_iff ys).mp h2
      subst hnil
      rw [h2] at h; simp only [Option.elim, Option.some.injEq] at h
      subst h
      simp only [List.mem_singleton] at hx
      subst hx
      exact le_refl _
    | some m =>
      rw [h2] at h; simp only [Option.elim, Option.some.injEq] at h
      subst h
      rcases List.mem_cons.mp hx with rfl | hx'
      · unfold qMax
        split_ifs with hc
        · exact le_of_lt hc
        · exact le_refl _
      · have hm := ih m h2 x hx'
        unfold qMax
        split_ifs with hc
        · exact hm
        · exact le_trans hm (le_of_not_lt hc)

theorem firstLatestStart_first (l : List QRule) :
    ∀ r, firstLatestStart l = some r →
      ∃ pre post, l = pre ++ r :: post ∧ ∀ x ∈ pre, x.start < r.start := by
  induction l with
  | nil => intro r h; simp [firstLatestStart] at h
  | cons y ys ih =>
    intro r h
    rw [firstLatestStart_cons] at h
    cases h2 : firstLatestStart ys with
    | none =>
      rw [h2] at h; simp only [Option.elim, Option.some.injEq] at h
      subst h
      exact ⟨[], ys, rfl, by simp⟩
    | some m =>
      rw [h2] at h; simp only [Option.elim, Option.some.injEq] at h
      by_cases hc : y.start < m.start
      · have hr : r = m := by rw [← h]; unfold qMax; simp [hc]
        subst hr
        obtain ⟨pre, post, heq, hpre⟩ := ih r h2
        refine ⟨y :: pre, post, by simp [heq], ?_⟩
        intro x hx
        rcases List.mem_cons.mp hx with rfl | hx'
        · exact hc
        · exact hpre x hx'
      · have hr : r = y := by rw [← h]; unfold qMax; simp [hc]
        subst hr
        exact ⟨[], ys, rfl, by simp⟩

theorem apply_p_rules_eq_add_sum (rem : ℚ) (dt : Ts) (ps : List PRule) :
    apply_p_rules rem dt ps = rem + pExtraSum dt ps := by
  unfold apply_p_rules pExtraSum
  induction ps generalizing rem with
  | nil => simp
  | cons p ps ih =>
    by_cases h : isWithinRange dt p.start p.stop = true <;>
      (simp [List.foldl_cons, h, ih]; try ring)

theorem adjustRemanent_q_some (dt : Ts) (q : List QRule) (p : List PRule)
    (rem : ℚ) (r : QRule) (h : best_q_rule dt q = some r) :
    adjustRemanent dt q p rem = r.fixed + pExtraSum dt p := by
  unfold adjustRemanent apply_q_override
  rw [h]
  exact apply_p_rules_eq_add_sum r.fixed dt p

theorem adjustRemanent_q_none (dt : Ts) (q : List QRule) (p : List PRule)
    (rem : ℚ) (h : best_q_rule dt q = none) :
    adjustRemanent dt q p rem = rem + pExtraSum dt p := by
  unfold adjustRemanent apply_q_override
  rw [h]
  exact apply_p_rules_eq_add_sum rem dt p

theorem adjustTxn_date (q : List QRule) (p : List PRule) (t : Transaction) :
    (adjustTxn q p t).date = t.date := rfl

theorem atf_valid_eq (q : List QRule) (p : List PRule) (k : List KRange)
    (l : List Transaction) :
    (apply_temporal_filter q p k l).valid
      = (l.map (adjustTxn q p)).filter (fun t => in_any_k t.date k) := by
  induction l with
  | nil => rfl
  | cons t ts ih =>
    show (if in_any_k t.date k then _ else (_ : TemporalResult)).valid = _
    by_cases h : in_any_k t.date k = true <;>
      simp [h, ih, apply_temporal_filter, adjustTxn]

theorem atf_invalid_eq (q : List QRule) (p : List PRule) (k : List KRange)
    (l : List Transaction) :
    (apply_temporal_filter q p k l).invalid
      = ((l.map (adjustTxn q p)).filter (fun t => !(in_any_k t.date k))).map
          (fun t => ⟨t, kGateMsg t.date⟩) := by
  induction l with
  | nil => rfl
  | cons t ts ih =>
    by_cases h : in_any_k t.date k = true <;>
      simp [h, ih, apply_temporal_filter, adjustTxn]

theorem processRawStep_neg (q : List QRule) (p : List PRule)
    (s : ProcessState) (r : RawTxn) (h : r.amount < 0) :
    processRawStep q p s r = s := by
  unfold processRawStep
  simp [h]

theorem processRawStep_dup (q : List QRule) (p : List PRule)
    (s : ProcessState) (r : RawTxn) (h : ¬ r.amount < 0) (hd : r.date ∈ s.seen) :
    processRawStep q p s r = s := by
  unfold processRawStep
  simp [h, hd]

theorem processFold_spec (q : List QRule) (p : List PRule) (raws : List RawTxn) :
    ∀ s : ProcessState,
      (raws.foldl (processRawStep q p) s).totalAmount
        = s.totalAmount + ((acceptedRaws s.seen raws).map RawTxn.amount).sum ∧
      (raws.foldl (processRawStep q p) s).totalCeiling
        = s.totalCeiling + ((acceptedRaws s.seen raws).map (fun r => compute_ceiling r.amount)).sum ∧
      (raws.foldl (processRawStep q p) s).seen
        = ((acceptedRaws s.seen raws).map RawTxn.date).reverse ++ s.seen := by
  induction raws with
  | nil => intro s; simp [acceptedRaws]
  | cons r rest ih =>
    intro s
    by_cases hneg : r.amount < 0
    · have hstep : processRawStep q p s r = s := processRawStep_neg q p s r hneg
      simp only [List.foldl_cons, hstep, acceptedRaws, if_pos hneg]
      exact ih s
    · by_cases hdup : r.date ∈ s.seen
      · have hstep : processRawStep q p s r = s := processRawStep_dup q p s r hneg hdup
        simp only [List.foldl_cons, hstep, acceptedRaws, if_neg hneg, if_pos hdup]
        exact ih s
      · obtain ⟨i1, i2, i3⟩ := ih (processRawStep q p s r)
        have hA : (processRawStep q p s r).totalAmount = s.totalAmount + r.amount := by
          unfold processRawStep; simp [hneg, hdup]
        have hC : (processRawStep q p s r).totalCeiling
            = s.totalCeiling + compute_ceiling r.amount := by
          unfold processRawStep; simp [hneg, hdup]
        have hS : (processRawStep q p s r).seen = r.date :: s.seen := by
          unfold processRawStep; simp [hneg, hdup]
        rw [List.foldl_cons]
        simp only [acceptedRaws, if_neg hneg, if_neg hdup]
        refine ⟨?_, ?_, ?_⟩
        · rw [i1, hA, hS]; simp only [List.map_cons, List.sum_cons]; ring
        · rw [i2, hC, hS]; simp only [List.map_cons, List.sum_cons]; ring
        · rw [i3, hS]; simp

theorem rawFilterStep_zero_drop (q : List QRule) (p : List PRule) (k : List KRange)
    (s : RawFilterState) (r : RawTxn) (h0 : 0 ≤ r.amount) (hd : r.date ∉ s.seen)
    (hz : adjustRemanent r.date q p (compute_remanent (compute_ceiling r.amount) r.amount) = 0) :
    rawFilterStep q p k s r = { s with seen := r.date :: s.seen } := by
  unfold rawFilterStep
  simp [not_lt.mpr h0, hd, hz]

theorem atf_count (q : List QRule) (p : List PRule) (k : List KRange)
    (l : List Transaction) :
    (apply_temporal_filter q p k l).valid.length
      + (apply_temporal_filter q p k l).invalid.length = l.length := by
  induction l with
  | nil => rfl
  | cons t ts ih =>
    by_cases h : in_any_k t.date k = true <;>
      (simp [apply_temporal_filter, h]; omega)

theorem process_totals (q : List QRule) (p : List PRule) (raws : List RawTxn) :
    (process_raw_transactions q p raws).totalAmount
      = ((acceptedRaws [] raws).map RawTxn.amount).sum ∧
    (process_raw_transactions q p raws).totalCeiling
      = ((acceptedRaws [] raws).map (fun r => compute_ceiling r.amount)).sum := by
  have h := processFold_spec q p raws ⟨[], 0, 0, []⟩
  unfold process_raw_transactions
  exact ⟨by rw [h.1]; simp, by rw [h.2.1]; simp⟩

theorem parse_expenses_ne_kmsg (ts : List ExpenseDict) :
    parse_expenses ts ≠ Except.error kRequiredMsg := by
  induction ts with
  | nil => simp [parse_expenses]
  | cons e es ih =>
    unfold parse_expenses
    cases hpe : parse_expense e with
    | error m =>
      have hm : m ≠ kRequiredMsg := by
        unfold parse_expense at hpe
        split_ifs at hpe <;>
          first
            | (injection hpe with h1; rw [← h1]; decide)
            | (split at hpe <;>
                first
                  | (injection hpe with h1; rw [← h1]; decide)
                  | (cases hpe))
      simp [hm]
    | ok x =>
      cases hps : parse_expenses es with
      | error m =>
        intro hcon
        injection hcon with h1
        rw [h1] at hps
        exact ih hps
      | ok xs => simp

theorem checkFilterTxs_ne_kmsg (ts : List FilterTxDict) :
    checkFilterTxs ts ≠ Except.error kRequiredMsg := by
  induction ts with
  | nil => simp [checkFilterTxs]
  | cons t rest ih =>
    unfold checkFilterTxs
    cases hpe : checkFilterTx t with
    | error m =>
      have hm : m ≠ kRequiredMsg := by
        unfold checkFilterTx at hpe
        split_ifs at hpe <;>
          first
            | (injection hpe with h1; rw [← h1]; decide)
            | (cases hpe)
      simp [hm]
    | ok x =>
      cases hps : checkFilterTxs rest with
      | error m =>
        intro hcon
        injection hcon with h1
        rw [h1] at hps
        exact ih hps
      | ok xs => simp

/- ── Claim theorems ─────────────────────────────────────────────────── -/

/-- C5: for every exact-decimal amount, `compute_ceiling amount` is a
multiple of 100, is at least `amount`, and `compute_ceiling amount - 100`
is below `amount` (it is the smallest multiple of 100 at or above the
amount); in particular amount 150.75 yields ceiling 200 and remanent
49.25. -/
theorem ceiling_is_smallest_multiple_of_100 :
    (∀ a : ℚ, (∃ n : ℤ, compute_ceiling a = 100 * n) ∧ a ≤ compute_ceiling a ∧
      compute_ceiling a - 100 < a) ∧
    compute_ceiling (15075 / 100) = 200 ∧
    compute_remanent (compute_ceiling (15075 / 100)) (15075 / 100) = 4925 / 100 := by
  have hc : compute_ceiling (15075 / 100) = 200 := by
    unfold compute_ceiling
    rw [show ((15075 : ℚ) / 100) / 100 = 603 / 400 by norm_num]
    rw [show (⌈(603 : ℚ) / 400⌉ : ℤ) = 2 by norm_num [Int.ceil_eq_iff]]
    norm_num
  refine ⟨fun a => ⟨⟨Int.ceil (a / 100), by unfold compute_ceiling; ring⟩, ?_, ?_⟩, hc, ?_⟩
  · have h := Int.le_ceil (a / 100)
    have h2 := mul_le_mul_of_nonneg_right h (by norm_num : (0:ℚ) ≤ 100)
    unfold compute_ceiling
    have h3 : a / 100 * 100 = a := by field_simp
    linarith
  · have h := Int.ceil_lt_add_one (a / 100)
    have h2 := mul_lt_mul_of_pos_right h (by norm_num : (0:ℚ) < 100)
    unfold compute_ceiling
    have h3 : (a / 100 + 1) * 100 = a + 100 := by field_simp
    linarith
  · rw [hc]; unfold compute_remanent; norm_num

/-- C2: the Q layer considers exactly the Q rules whose inclusive window
contains the transaction timestamp; `best_q_rule` returns the first listed
matching rule with the latest start (`firstLatestStart` of the matching
sublist, written from the spec words), it returns a rule containing the
timestamp whose start dominates every other match, earlier-listed matches
have strictly smaller starts (ties go to the first listed), and
`apply_q_override` — the Q layer shared, by definition, by both
temporal-engine variants and the returns pipeline — replaces the remanent
by the selected rule's `fixed`, or leaves it unchanged when no rule
matches. -/
theorem q_rule_selection_latest_start_ties_first :
    (∀ dt q, best_q_rule dt q
        = firstLatestStart (q.filter (fun r => isWithinRange dt r.start r.stop))) ∧
    (∀ dt q, best_q_rule dt q = none
        ↔ q.filter (fun r => isWithinRange dt r.start r.stop) = []) ∧
    (∀ dt q r, best_q_rule dt q = some r →
      r ∈ q ∧ isWithinRange dt r.start r.stop = true ∧
        ∀ x ∈ q, isWithinRange dt x.start x.stop = true → x.start ≤ r.start) ∧
    (∀ dt q r, best_q_rule dt q = some r →
      ∃ pre post, q.filter (fun x => isWithinRange dt x.start x.stop) = pre ++ r :: post ∧
        ∀ x ∈ pre, x.start < r.start) ∧
    (∀ dt q rem, best_q_rule dt q = none → apply_q_override dt q rem = rem) ∧
    (∀ dt q rem r, best_q_rule dt q = some r → apply_q_override dt q rem = r.fixed) := by
  refine ⟨best_q_rule_eq_firstLatestStart, ?_, ?_, ?_, ?_, ?_⟩
  · intro dt q
    rw [best_q_rule_eq_firstLatestStart]
    exact firstLatestStart_eq_none_iff _
  · intro dt q r h
    rw [best_q_rule_eq_firstLatestStart] at h
    have hmem := firstLatestStart_mem _ r h
    have hmax := firstLatestStart_maximal _ r h
    rw [List.mem_filter] at hmem
    refine ⟨hmem.1, hmem.2, ?_⟩
    intro x hx hxin
    exact hmax x (List.mem_filter.mpr ⟨hx, hxin⟩)
  · intro dt q r h
    rw [best_q_rule_eq_firstLatestStart] at h
    exact firstLatestStart_first _ r h
  · intro dt q rem h
    unfold apply_q_override
    rw [h]
  · intro dt q rem r h
    unfold apply_q_override
    rw [h]

/-- C2 witness: two overlapping Q rules with starts 0 and 3; the rule with
the later start is selected and dominates both matches. -/
theorem q_rule_selection_witness :
    best_q_rule 5 [⟨7, 0, 10⟩, ⟨9, 3, 10⟩] = some ⟨9, 3, 10⟩ ∧
    ((⟨9, 3, 10⟩ : QRule) ∈ [(⟨7, 0, 10⟩ : QRule), ⟨9, 3, 10⟩] ∧
      isWithinRange 5 3 10 = true ∧
      ∀ x ∈ [(⟨7, 0, 10⟩ : QRule), ⟨9, 3, 10⟩],
        isWithinRange 5 x.start x.stop = true → x.start ≤ 3) :=
  ⟨rfl, q_rule_selection_latest_start_ties_first.2.2.1 5 _ _ rfl⟩

/-- C1: in `validate_transactions`, with `maxInvestable` computed once as
`min(10 percent of the wage, 200000)`, once the sticky breached flag is
set no later transaction is accepted and the running sum no longer moves;
a transaction that passes rules 2-4 (rule 1, the serialise-reparse check,
always succeeds for parsed timestamps) while the flag is clear and whose
remanent pushes the running sum over the limit is rejected and sets the
flag; a transaction passing rules 2-4 while the flag is set is rejected
under the limit rule; the running sum is unchanged whenever a transaction
is not accepted and grows by exactly the accepted remanent otherwise
(which requires the new sum to stay within the limit); and with wage 50000
and remanents [3000, 3000, 1] only the first transaction is accepted. -/
theorem validator_cumulative_limit_sticky :
    (∀ wage : ℚ, maxInvestable wage = min (wage * (10 / 100)) 200000) ∧
    (∀ (M : ℚ) (s : ValidatorState) (t : Transaction), s.limitReached = true →
      (validateStep M s t).valid = s.valid ∧
      (validateStep M s t).cumulative = s.cumulative ∧
      (validateStep M s t).limitReached = true) ∧
    (∀ (M : ℚ) (s : ValidatorState) (t : Transaction),
      ¬ t.remanent < 0 → ¬ t.ceiling < t.amount → t.date ∉ s.seen →
      s.limitReached = false → s.cumulative + t.remanent > M →
      validateStep M s t
        = { s with limitReached := true,
                   invalid := s.invalid ++ [⟨t, limitBreachMsg t.remanent M s.cumulative⟩] }) ∧
    (∀ (M : ℚ) (s : ValidatorState) (t : Transaction),
      ¬ t.remanent < 0 → ¬ t.ceiling < t.amount → t.date ∉ s.seen →
      s.limitReached = true →
      validateStep M s t = { s with invalid := s.invalid ++ [⟨t, limitAlreadyMsg M⟩] }) ∧
    (∀ (M : ℚ) (s : ValidatorState) (t : Transaction),
      (validateStep M s t).valid = s.valid → (validateStep M s t).cumulative = s.cumulative) ∧
    (∀ (M : ℚ) (s : ValidatorState) (t : Transaction),
      (validateStep M s t).valid ≠ s.valid →
      (validateStep M s t).valid = s.valid ++ [t] ∧
      (validateStep M s t).cumulative = s.cumulative + t.remanent ∧
      s.cumulative + t.remanent ≤ M) ∧
    (validate_transactions 50000
        [⟨0, 97000, 100000, 3000⟩, ⟨1, 97000, 100000, 3000⟩, ⟨2, 99, 100, 1⟩]).valid
      = [⟨0, 97000, 100000, 3000⟩] := by
  refine ⟨fun wage => rfl, ?_, ?_, ?_, ?_, ?_, ?_⟩
  · intro M s t h
    unfold validateStep
    split_ifs <;> simp_all
  · intro M s t h1 h2 h3 h4 h5
    simp [validateStep, h1, h2, h3, h4, h5]
  · intro M s t h1 h2 h3 h4
    simp [validateStep, h1, h2, h3, h4]
  · intro M s t h
    unfold validateStep at h ⊢
    split_ifs at h ⊢ <;> simp_all
  · intro M s t h
    unfold validateStep at h ⊢
    split_ifs at h ⊢ <;> simp_all
  · norm_num [validate_transactions, validateStep, maxInvestable,
      NPS_WAGE_FRACTION, NPS_MAX_ABSOLUTE, min_def]

/-- C1 witness: with limit 5000, cumulative 3000 and a clear flag, a
transaction with remanent 3000 that passes rules 2-4 is rejected with the
breach message and the flag becomes sticky. -/
theorem validator_cumulative_limit_sticky_witness :
    ¬ (3000 : ℚ) < 0 ∧ ¬ (100000 : ℚ) < 97000 ∧ (1 : Ts) ∉ ([0] : List Ts) ∧
    (3000 : ℚ) + 3000 > 5000 ∧
    validateStep 5000 ⟨[⟨0, 97000, 100000, 3000⟩], [], 3000, [0], false⟩
        ⟨1, 97000, 100000, 3000⟩
      = ⟨[⟨0, 97000, 100000, 3000⟩],
         [⟨⟨1, 97000, 100000, 3000⟩, limitBreachMsg 3000 5000 3000⟩],
         3000, [0], true⟩ := by
  refine ⟨by norm_num, by norm_num, by decide, by norm_num, ?_⟩
  exact validator_cumulative_limit_sticky.2.2.1 5000
    ⟨[⟨0, 97000, 100000, 3000⟩], [], 3000, [0], false⟩ ⟨1, 97000, 100000, 3000⟩
    (by norm_num) (by norm_num) (by decide) rfl (by norm_num)

/-- C3: in `calculate_returns` the aggregate totals are the sums of the
raw amount and of the ceiling over all accepted transactions (negatives
and duplicates removed), taken before any Q/P adjustment; for a fixed raw
list they are identical for every choice of age, wage, inflation, Q rules,
P rules, K ranges and product. -/
theorem returns_totals_raw_pre_adjustment :
    ∀ (age : ℤ) (wage infl : ℚ) (q : List QRule) (p : List PRule) (k : List KRange)
      (raws : List RawTxn) (tb : Bool),
      (calculate_returns age wage infl q p k raws tb).totalTransactionAmount
        = ((acceptedRaws [] raws).map RawTxn.amount).sum ∧
      (calculate_returns age wage infl q p k raws tb).totalCeiling
        = ((acceptedRaws [] raws).map (fun r => compute_ceiling r.amount)).sum ∧
      ∀ (age₂ : ℤ) (wage₂ infl₂ : ℚ) (q₂ : List QRule) (p₂ : List PRule)
        (k₂ : List KRange) (tb₂ : Bool),
        (calculate_returns age wage infl q p k raws tb).totalTransactionAmount
          = (calculate_returns age₂ wage₂ infl₂ q₂ p₂ k₂ raws tb₂).totalTransactionAmount ∧
        (calculate_returns age wage infl q p k raws tb).totalCeiling
          = (calculate_returns age₂ wage₂ infl₂ q₂ p₂ k₂ raws tb₂).totalCeiling := by
  intro age wage infl q p k raws tb
  have h1 : (calculate_returns age wage infl q p k raws tb).totalTransactionAmount
      = (process_raw_transactions q p raws).totalAmount := rfl
  have h2 : (calculate_returns age wage infl q p k raws tb).totalCeiling
      = (process_raw_transactions q p raws).totalCeiling := rfl
  refine ⟨by rw [h1, (process_totals q p raws).1],
          by rw [h2, (process_totals q p raws).2], ?_⟩
  intro age₂ wage₂ infl₂ q₂ p₂ k₂ tb₂
  have g1 : (calculate_returns age₂ wage₂ infl₂ q₂ p₂ k₂ raws tb₂).totalTransactionAmount
      = (process_raw_transactions q₂ p₂ raws).totalAmount := rfl
  have g2 : (calculate_returns age₂ wage₂ infl₂ q₂ p₂ k₂ raws tb₂).totalCeiling
      = (process_raw_transactions q₂ p₂ raws).totalCeiling := rfl
  constructor
  · rw [h1, g1, (process_totals q p raws).1, (process_totals q₂ p₂ raws).1]
  · rw [h2, g2, (process_totals q p raws).2, (process_totals q₂ p₂ raws).2]

/-- C4 counterexample: the returns calculation does sign-check and
deduplicate.  A single negative record contributes 0, not its amount
(-10), to `totalTransactionAmount`; two records sharing a timestamp
contribute the amount once (100), not twice (200). -/
theorem returns_dedup_sign_check_counterexample :
    (calculate_returns 29 50000 0 [] [] [⟨0, 10, "", ""⟩]
      [⟨5, -10⟩] false).totalTransactionAmount = 0 ∧
    (0 : ℚ) ≠ -10 ∧
    (calculate_returns 29 50000 0 [] [] [⟨0, 10, "", ""⟩]
      [⟨5, 100⟩, ⟨5, 100⟩] false).totalTransactionAmount = 100 ∧
    (100 : ℚ) ≠ 100 + 100 := by
  refine ⟨?_, by norm_num, ?_, by norm_num⟩
  · have h1 : (calculate_returns 29 50000 0 [] [] [⟨0, 10, "", ""⟩]
        [⟨5, -10⟩] false).totalTransactionAmount
        = (process_raw_transactions [] [] [⟨5, -10⟩]).totalAmount := rfl
    rw [h1, (process_totals [] [] [⟨5, -10⟩]).1]
    norm_num [acceptedRaws]
  · have h1 : (calculate_returns 29 50000 0 [] [] [⟨0, 10, "", ""⟩]
        [⟨5, 100⟩, ⟨5, 100⟩] false).totalTransactionAmount
        = (process_raw_transactions [] [] [⟨5, 100⟩, ⟨5, 100⟩]).totalAmount := rfl
    rw [h1, (process_totals [] [] [⟨5, 100⟩, ⟨5, 100⟩]).1]
    norm_num [acceptedRaws]

/-- C4 amended: the returns calculation silently drops raw records with a
negative amount or an already-seen timestamp before computing totals:
removing such a record from the input leaves the entire returns result
(totals, per-K sums, projections) unchanged. -/
theorem returns_negative_or_duplicate_contribute_nothing
    (age : ℤ) (wage infl : ℚ) (q : List QRule) (p : List PRule) (k : List KRange)
    (tb : Bool) (pre post : List RawTxn) (r : RawTxn)
    (h : r.amount < 0 ∨ r.date ∈ (process_raw_transactions q p pre).seen) :
    calculate_returns age wage infl q p k (pre ++ r :: post) tb
      = calculate_returns age wage infl q p k (pre ++ post) tb := by
  have hstep : processRawStep q p (process_raw_transactions q p pre) r
      = process_raw_transactions q p pre := by
    rcases h with hneg | hdup
    · exact processRawStep_neg q p _ r hneg
    · by_cases hneg : r.amount < 0
      · exact processRawStep_neg q p _ r hneg
      · exact processRawStep_dup q p _ r hneg hdup
  have hfold : process_raw_transactions q p (pre ++ r :: post)
      = process_raw_transactions q p (pre ++ post) := by
    unfold process_raw_transactions
    rw [List.foldl_append, List.foldl_append, List.foldl_cons]
    exact congrArg (fun s => post.foldl (processRawStep q p) s) hstep
  exact congrArg (fun s : ProcessState =>
    (⟨s.totalAmount, s.totalCeiling,
      k.map (fun kr => compute_savings kr (sum_remanent_in_k s.enriched kr)
        (if tb then NPS_ANNUAL_RATE else INDEX_ANNUAL_RATE)
        (resolve_investment_years age) infl wage tb)⟩ : ReturnsResult)) hfold

/-- C4 witness: dropping one negative record from a batch leaves the
returns result identical to the batch without that record. -/
theorem returns_drop_witness :
    ((⟨5, -10⟩ : RawTxn).amount < 0 ∨
      (⟨5, -10⟩ : RawTxn).date ∈ (process_raw_transactions [] [] []).seen) ∧
    calculate_returns 29 50000 0 [] [] [⟨0, 10, "", ""⟩] ([] ++ ⟨5, -10⟩ :: []) false
      = calculate_returns 29 50000 0 [] [] [⟨0, 10, "", ""⟩] ([] ++ []) false :=
  ⟨Or.inl (by norm_num), returns_negative_or_duplicate_contribute_nothing
    29 50000 0 [] [] [⟨0, 10, "", ""⟩] false [] [] ⟨5, -10⟩ (Or.inl (by norm_num))⟩

/-- C6 counterexample: with one P rule (extra 10) matching the window and
no Q rule, re-running `apply_temporal_filter` on its own valid output is
not a no-op — the P extra is added a second time (remanent 60 becomes
70). -/
theorem temporal_filter_not_idempotent_counterexample :
    ¬ (apply_temporal_filter [] [⟨10, 0, 10⟩] [⟨0, 10, "", ""⟩]
        ((apply_temporal_filter [] [⟨10, 0, 10⟩] [⟨0, 10, "", ""⟩]
          [⟨5, 50, 100, 50⟩]).valid)
      = ⟨(apply_temporal_filter [] [⟨10, 0, 10⟩] [⟨0, 10, "", ""⟩]
          [⟨5, 50, 100, 50⟩]).valid, []⟩) := by
  norm_num [apply_temporal_filter, adjustTxn, adjustRemanent, apply_q_override,
    best_q_rule, apply_p_rules, in_any_k, isWithinRange, kGateMsg]

/-- C6 amended: re-running `apply_temporal_filter` on its own
valid-partition output with the same Q, P and K rule sets is a no-op
(no transaction moves to invalid and every remanent is unchanged)
provided every valid transaction either matches some Q rule or has
matching P extras summing to zero (in particular whenever the P rule list
is empty); without that proviso the matching P extras are added once
more on the second run, as the counterexample shows. -/
theorem temporal_filter_conditional_idempotent (q : List QRule) (p : List PRule)
    (k : List KRange) (txns : List Transaction)
    (h : ∀ t ∈ (apply_temporal_filter q p k txns).valid,
      (best_q_rule t.date q).isSome = true ∨ pExtraSum t.date p = 0) :
    apply_temporal_filter q p k (apply_temporal_filter q p k txns).valid
      = ⟨(apply_temporal_filter q p k txns).valid, []⟩ := by
  have hinK : ∀ t ∈ (apply_temporal_filter q p k txns).valid,
      in_any_k t.date k = true := by
    intro t ht
    rw [atf_valid_eq] at ht
    exact (List.mem_filter.mp ht).2
  have hfix : ∀ t ∈ (apply_temporal_filter q p k txns).valid, adjustTxn q p t = t := by
    intro t ht
    have ht2 := ht
    rw [atf_valid_eq] at ht2
    obtain ⟨t₀, ht₀, heq⟩ := List.mem_map.mp (List.mem_filter.mp ht2).1
    have hrem0 : t.remanent = adjustRemanent t.date q p t₀.remanent := by
      rw [← heq]; rfl
    have hrem : adjustRemanent t.date q p t.remanent = t.remanent := by
      cases hq : best_q_rule t.date q with
      | some r =>
        rw [hrem0, adjustRemanent_q_some t.date q p _ r hq,
          adjustRemanent_q_some t.date q p _ r hq]
      | none =>
        rcases h t ht with hqq | hp
        · rw [hq] at hqq; simp at hqq
        · rw [adjustRemanent_q_none t.date q p _ hq, hp, add_zero]
    rcases t with ⟨d, a, c, rm⟩
    simp only [adjustTxn] at hrem ⊢
    simp [hrem]
  have hmap : (apply_temporal_filter q p k txns).valid.map (adjustTxn q p)
      = (apply_temporal_filter q p k txns).valid :=
    (List.map_congr_left hfix).trans ((apply_temporal_filter q p k txns).valid.map_id)
  have hv := atf_valid_eq q p k (apply_temporal_filter q p k txns).valid
  have hi := atf_invalid_eq q p k (apply_temporal_filter q p k txns).valid
  rw [hmap] at hv hi
  rw [List.filter_eq_self.mpr hinK] at hv
  have hnil : (apply_temporal_filter q p k txns).valid.filter
      (fun t => !(in_any_k t.date k)) = [] := by
    rw [List.filter_eq_nil_iff]
    intro a ha
    simp [hinK a ha]
  rw [hnil] at hi
  simp only [List.map_nil] at hi
  have hsplit : apply_temporal_filter q p k (apply_temporal_filter q p k txns).valid
      = ⟨(apply_temporal_filter q p k (apply_temporal_filter q p k txns).valid).valid,
         (apply_temporal_filter q p k (apply_temporal_filter q p k txns).valid).invalid⟩ := rfl
  rw [hsplit, hv, hi]

/-- C6 witness: with a Q rule matching every transaction and no P rules,
re-running the filter on its own valid output is a no-op. -/
theorem temporal_filter_conditional_idempotent_witness :
    (∀ t ∈ (apply_temporal_filter [⟨0, 0, 10⟩] [] [⟨0, 10, "", ""⟩]
        [⟨5, 50, 100, 50⟩]).valid,
      (best_q_rule t.date [⟨0, 0, 10⟩]).isSome = true ∨ pExtraSum t.date [] = 0) ∧
    apply_temporal_filter [⟨0, 0, 10⟩] [] [⟨0, 10, "", ""⟩]
        (apply_temporal_filter [⟨0, 0, 10⟩] [] [⟨0, 10, "", ""⟩]
          [⟨5, 50, 100, 50⟩]).valid
      = ⟨(apply_temporal_filter [⟨0, 0, 10⟩] [] [⟨0, 10, "", ""⟩]
          [⟨5, 50, 100, 50⟩]).valid, []⟩ := by
  have hyp : ∀ t ∈ (apply_temporal_filter [⟨0, 0, 10⟩] [] [⟨0, 10, "", ""⟩]
      [⟨5, 50, 100, 50⟩]).valid,
      (best_q_rule t.date [⟨0, 0, 10⟩]).isSome = true ∨ pExtraSum t.date [] = 0 :=
    fun t _ => Or.inr rfl
  exact ⟨hyp, temporal_filter_conditional_idempotent _ _ _ _ hyp⟩

/-- C7: in `apply_temporal_filter_raw`, a raw record with a non-negative
amount and an unseen timestamp whose remanent after the Q override and P
additions is zero is silently dropped: processing it only records its
timestamp as seen, so it contributes no entry to either output list, for
every K range list — the whole run on `pre ++ r :: post` equals the run
that continues on `post` from the pre-state with only `r.date` marked
seen. -/
theorem raw_filter_zero_remanent_silently_dropped (q : List QRule) (p : List PRule)
    (k : List KRange) (pre post : List RawTxn) (r : RawTxn)
    (h0 : 0 ≤ r.amount)
    (hd : r.date ∉ (rawFilterFold q p k ⟨[], [], []⟩ pre).seen)
    (hz : adjustRemanent r.date q p
      (compute_remanent (compute_ceiling r.amount) r.amount) = 0) :
    rawFilterFold q p k ⟨[], [], []⟩ (pre ++ r :: post)
      = rawFilterFold q p k
          { rawFilterFold q p k ⟨[], [], []⟩ pre with
            seen := r.date :: (rawFilterFold q p k ⟨[], [], []⟩ pre).seen } post ∧
    apply_temporal_filter_raw q p k (pre ++ r :: post)
      = ⟨(rawFilterFold q p k
            { rawFilterFold q p k ⟨[], [], []⟩ pre with
              seen := r.date :: (rawFilterFold q p k ⟨[], [], []⟩ pre).seen } post).valid,
         (rawFilterFold q p k
            { rawFilterFold q p k ⟨[], [], []⟩ pre with
              seen := r.date :: (rawFilterFold q p k ⟨[], [], []⟩ pre).seen } post).invalid⟩ := by
  have hfold : rawFilterFold q p k ⟨[], [], []⟩ (pre ++ r :: post)
      = rawFilterFold q p k
          { rawFilterFold q p k ⟨[], [], []⟩ pre with
            seen := r.date :: (rawFilterFold q p k ⟨[], [], []⟩ pre).seen } post := by
    unfold rawFilterFold
    rw [List.foldl_append, List.foldl_cons]
    exact congrArg (fun s => post.foldl (rawFilterStep q p k) s)
      (rawFilterStep_zero_drop q p k _ r h0 hd hz)
  refine ⟨hfold, ?_⟩
  show (⟨(rawFilterFold q p k ⟨[], [], []⟩ (pre ++ r :: post)).valid,
         (rawFilterFold q p k ⟨[], [], []⟩ (pre ++ r :: post)).invalid⟩ : FilterResult) = _
  rw [hfold]

/-- C7 witness: a record of amount 30 (remanent 70) overridden to 0 by a
matching Q rule appears in neither output list of the raw filter. -/
theorem raw_filter_zero_drop_witness :
    (0 : ℚ) ≤ 30 ∧
    ((5 : Ts) ∉ (rawFilterFold [⟨0, 0, 10⟩] [] [⟨0, 10, "", ""⟩] ⟨[], [], []⟩ []).seen) ∧
    adjustRemanent 5 [⟨0, 0, 10⟩] []
      (compute_remanent (compute_ceiling 30) 30) = 0 ∧
    apply_temporal_filter_raw [⟨0, 0, 10⟩] [] [⟨0, 10, "", ""⟩] ([] ++ ⟨5, 30⟩ :: [])
      = ⟨(rawFilterFold [⟨0, 0, 10⟩] [] [⟨0, 10, "", ""⟩]
            { rawFilterFold [⟨0, 0, 10⟩] [] [⟨0, 10, "", ""⟩] ⟨[], [], []⟩ [] with
              seen := 5 :: (rawFilterFold [⟨0, 0, 10⟩] [] [⟨0, 10, "", ""⟩]
                ⟨[], [], []⟩ []).seen } []).valid,
         (rawFilterFold [⟨0, 0, 10⟩] [] [⟨0, 10, "", ""⟩]
            { rawFilterFold [⟨0, 0, 10⟩] [] [⟨0, 10, "", ""⟩] ⟨[], [], []⟩ [] with
              seen := 5 :: (rawFilterFold [⟨0, 0, 10⟩] [] [⟨0, 10, "", ""⟩]
                ⟨[], [], []⟩ []).seen } []).invalid⟩ := by
  refine ⟨by norm_num, by simp [rawFilterFold], rfl, ?_⟩
  exact (raw_filter_zero_remanent_silently_dropped [⟨0, 0, 10⟩] [] [⟨0, 10, "", ""⟩]
    [] [] ⟨5, 30⟩ (by norm_num) (by simp [rawFilterFold]) rfl).2

/-- C8 counterexample: with an empty K list the request parser fails with
the message "At least one K range is required." — capitalised and with a
trailing period, not the claimed lowercase "at least one K range is
required". -/
theorem k_required_message_counterexample :
    parse_returns_body [] [] = Except.error "At least one K range is required." ∧
    ("At least one K range is required." : String)
      ≠ "at least one K range is required" :=
  ⟨rfl, by decide⟩

/-- C8 amended: both request entry points (the returns body parser and the
filter route) fail with the error "At least one K range is required."
exactly when the supplied K range list is empty — the check runs before
any per-transaction parsing, so it fires even for malformed transactions,
and with at least one K range that error can never be produced. -/
theorem k_range_required_iff (k : List KRange) (txs : List ExpenseDict)
    (fts : List FilterTxDict) :
    (parse_returns_body k txs = Except.error kRequiredMsg ↔ k = []) ∧
    (filter_route_check k fts = Except.error kRequiredMsg ↔ k = []) := by
  constructor
  · constructor
    · intro h
      by_contra hk
      unfold parse_returns_body at h
      rw [if_neg (by simpa using hk)] at h
      cases hpe : parse_expenses txs with
      | error m =>
        rw [hpe] at h
        injection h with h1
        rw [h1] at hpe
        exact parse_expenses_ne_kmsg txs hpe
      | ok xs => rw [hpe] at h; cases h
    · intro hk; subst hk; rfl
  · constructor
    · intro h
      by_contra hk
      unfold filter_route_check at h
      rw [if_neg (by simpa using hk)] at h
      cases hpe : checkFilterTxs fts with
      | error m =>
        rw [hpe] at h
        injection h with h1
        rw [h1] at hpe
        exact checkFilterTxs_ne_kmsg fts hpe
      | ok xs => rw [hpe] at h; cases h
    · intro hk; subst hk; rfl

/-- C8 witness: with one K range neither entry point produces the
required-K error. -/
theorem k_range_required_iff_witness :
    (parse_returns_body [⟨0, 10, "", ""⟩] [] = Except.error kRequiredMsg
      ↔ ([⟨0, 10, "", ""⟩] : List KRange) = []) ∧
    (filter_route_check [⟨0, 10, "", ""⟩] [] = Except.error kRequiredMsg
      ↔ ([⟨0, 10, "", ""⟩] : List KRange) = []) :=
  k_range_required_iff [⟨0, 10, "", ""⟩] [] []

/-- C9: the `start`/`end` fields of the returns output do not echo the
original K boundary strings — `_parse_k_range` in the returns route never
fills `raw_start`/`raw_end`, so every `SavingsByDate` echoes the dataclass
defaults `""` instead of the input strings (here
"2023-01-01 00:00:00" / "2023-12-31 23:59:59"). -/
theorem k_bounds_echoed_as_empty_strings :
    ((calculate_returns 29 50000 (55/1000) [] []
        [parse_k_range "2023-01-01 00:00:00" "2023-12-31 23:59:59" 0 100]
        [⟨5, 15075/100⟩] false).savingsByDates.map SavingsByDate.start = [""]) ∧
    ((calculate_returns 29 50000 (55/1000) [] []
        [parse_k_range "2023-01-01 00:00:00" "2023-12-31 23:59:59" 0 100]
        [⟨5, 15075/100⟩] false).savingsByDates.map SavingsByDate.stop = [""]) ∧
    ("" : String) ≠ "2023-01-01 00:00:00" ∧ ("" : String) ≠ "2023-12-31 23:59:59" := by
  refine ⟨?_, ?_, by decide, by decide⟩
  · simp [calculate_returns, compute_savings, parse_k_range]
  · simp [calculate_returns, compute_savings, parse_k_range]

/-- C10: `apply_temporal_filter` emits every input transaction exactly
once — the valid partition is exactly the adjusted transactions inside
some K range, the invalid partition carries exactly the adjusted
transactions outside every K range, the two partitions together have as
many entries as the input, and the adjustment changes only the remanent
(date, amount and ceiling are preserved).  In particular, unlike the raw
variant, a transaction whose adjusted remanent is zero is still emitted. -/
theorem temporal_filter_total_partition (q : List QRule) (p : List PRule)
    (k : List KRange) (txns : List Transaction) :
    (apply_temporal_filter q p k txns).valid
      = (txns.map (adjustTxn q p)).filter (fun t => in_any_k t.date k) ∧
    (apply_temporal_filter q p k txns).invalid.map InvalidTransaction.transaction
      = (txns.map (adjustTxn q p)).filter (fun t => !(in_any_k t.date k)) ∧
    (apply_temporal_filter q p k txns).valid.length
      + (apply_temporal_filter q p k txns).invalid.length = txns.length ∧
    (∀ t : Transaction, (adjustTxn q p t).date = t.date ∧
      (adjustTxn q p t).amount = t.amount ∧ (adjustTxn q p t).ceiling = t.ceiling) := by
  refine ⟨atf_valid_eq q p k txns, ?_, atf_count q p k txns, fun t => ⟨rfl, rfl, rfl⟩⟩
  rw [atf_invalid_eq, List.map_map]
  exact (List.map_congr_left (fun a _ => rfl)).trans (List.map_id _)
